import Mathlib

/-!
# Verification of the comms_champion protocol-framework core

Shallow embedding of the core data model of the comms library: the
error-status taxonomy, fixed-length big-endian integer field codecs,
the bitfield pack/unpack algorithm, the protocol layer stack
(`SyncPrefixLayer`, the `Size` layer, the payload layer) with its
read / write / update contract, the message-interface capability
mixins, and the refresh contract.

Wire bytes are modelled as `List Nat` (each element an octet value),
sizes as `Nat`, iterators as positions realised by consuming list
prefixes.  Fallible operations return an `ErrorStatus` alongside their
outputs, mirroring the C++ return-code style.
-/

namespace CommsChampion

/-- Error taxonomy of the framework, from `comms/ErrorStatus.h` as listed
in the spec's external-interface section. -/
inductive ErrorStatus where
  | Success
  | UpdateRequired
  | NotEnoughData
  | ProtocolError
  | InvalidMsgId
  | InvalidMsgData
  | MsgAllocFailure
  | BufferOverflow
  | NotSupported
deriving DecidableEq, Repr

/-- Big-endian serialisation of `v` into exactly `n` octets.  The value is
silently truncated to the configured width, as the integer codec does. -/
def bytesBE : Nat → Nat → List Nat
  | 0, _ => []
  | n + 1, v => bytesBE n (v / 256) ++ [v % 256]

/-- Big-endian recombination of a list of octets into a natural number. -/
def natFromBytesBE (bs : List Nat) : Nat :=
  bs.foldl (fun acc b => acc * 256 + b) 0

theorem bytesBE_length (n v : Nat) : (bytesBE n v).length = n := by
  induction n generalizing v with
  | zero => rfl
  | succ k ih => simp [bytesBE, ih]

theorem natFromBytesBE_append_one (bs : List Nat) (b : Nat) :
    natFromBytesBE (bs ++ [b]) = natFromBytesBE bs * 256 + b := by
  simp [natFromBytesBE]

/-- Round-trip of the octet-level codec: serialising and recombining
returns the value modulo the configured width. -/
theorem natFromBytesBE_bytesBE (n v : Nat) :
    natFromBytesBE (bytesBE n v) = v % 256 ^ n := by
  induction n generalizing v with
  | zero => simp [bytesBE, natFromBytesBE, Nat.mod_one]
  | succ k ih =>
      rw [bytesBE, natFromBytesBE_append_one, ih, pow_succ, mul_comm (256 ^ k) 256]
      have h1 : v % (256 * 256 ^ k) / 256 = v / 256 % 256 ^ k :=
        Nat.mod_mul_right_div_self v 256 (256 ^ k)
      have h2 : v % (256 * 256 ^ k) % 256 = v % 256 :=
        Nat.mod_mod_of_dvd v ⟨256 ^ k, rfl⟩
      have h3 := Nat.div_add_mod (v % (256 * 256 ^ k)) 256
      omega

/-- Outcome of one integer-field read: status, decoded value, remaining
input.  On failure the iterator is not advanced and the value is left at
its default. -/
structure FieldReadResult where
  status : ErrorStatus
  value : Nat
  rest : List Nat
deriving DecidableEq, Repr

/-- Modelled from the spec: the fixed-length unsigned integer field codec
(`comms::field::IntValue` basic serialisation, whose implementation file
is not part of the sources here; only its facade `EnumValue.h` is).
"Encoding: truncate/sign-extend to the configured width, emit under
ambient endian"; fewer bytes remaining than `min_length()` yields
`NotEnoughData`.  Ambient endian is big, as in the spec's scenarios. -/
def intFieldRead (len : Nat) (data : List Nat) (size : Nat) : FieldReadResult :=
  if size < len then ⟨ErrorStatus.NotEnoughData, 0, data⟩
  else ⟨ErrorStatus.Success, natFromBytesBE (data.take len), data.drop len⟩

/-- Modelled from the spec: write side of the fixed-length unsigned
integer field codec.  A destination that can hold fewer than `length()`
bytes yields `BufferOverflow`; the value is silently truncated to the
configured width. -/
def intFieldWrite (len : Nat) (v : Nat) (size : Nat) : ErrorStatus × List Nat :=
  if size < len then (ErrorStatus.BufferOverflow, [])
  else (ErrorStatus.Success, bytesBE len v)

/-- A fixed-length framing field: its serialised length in octets
(`minLength = maxLength = len`) and the value a default-constructed
field holds (for a sync field, the configured magic constant). -/
structure FieldCodec where
  len : Nat
  defaultVal : Nat
deriving DecidableEq, Repr

/-- Outcome of a layer-stack read: status, decoded message (if any),
remaining input, and the `*missingSize` output (`none` models both a
null pointer and an untouched output). -/
structure ReadOut (Msg : Type) where
  status : ErrorStatus
  msg : Option Msg
  rest : List Nat
  missing : Option Nat

/-- The uniform operations a protocol layer (with everything inside it)
exposes, from `ProtocolLayerBase`: message-independent minimal `length()`,
message-dependent `length(msg)`, `read` (the `Bool` argument models
whether the caller passed a non-null `missingSize` pointer), write
through a random-access iterator, write through a push-back iterator,
and the second-pass `update` over the written buffer. -/
structure LayerOps (Msg : Type) where
  minLen : Nat
  lenOf : Msg → Nat
  read : List Nat → Nat → Bool → ReadOut Msg
  writeRA : Msg → Nat → ErrorStatus × List Nat
  writePB : Msg → Nat → ErrorStatus × List Nat
  update : List Nat → Nat → ErrorStatus × List Nat

/-- Modelled from the spec: the payload layer (base case,
`comms::protocol::MsgDataLayer`, not among the sources here).  It "reads
into the message's payload field set or writes from it; no framing
field": the message body is its serialised byte list, a read consumes
all `size` remaining bytes, a write emits the body (`BufferOverflow`
when the destination cannot hold it), and `update` does nothing but
succeed. -/
def payloadLayer : LayerOps (List Nat) where
  minLen := 0
  lenOf m := m.length
  read data size _ := ⟨ErrorStatus.Success, some (data.take size), data.drop size, none⟩
  writeRA m size :=
    if size < m.length then (ErrorStatus.BufferOverflow, [])
    else (ErrorStatus.Success, m)
  writePB m size :=
    if size < m.length then (ErrorStatus.BufferOverflow, [])
    else (ErrorStatus.Success, m)
  update buf _ := (ErrorStatus.Success, buf)

/-- `ProtocolLayerBase::updateMissingSize(field, size, missingSize)`:
when the pointer is non-null, `*missingSize` becomes
`max(1, field.length() + nextLayer.length() - size)`. -/
def updateMissingSize (fieldLen nextMinLen size : Nat) (ptr : Bool) : Option Nat :=
  if ptr then some (max 1 (fieldLen + nextMinLen - size)) else none

/-- `SyncPrefixLayer::doRead`: read the sync field; on `NotEnoughData`
report the missing size; on any non-success status return it; if the
read field differs from the default-constructed field return
`ProtocolError`; otherwise delegate to the next layer with the size
reduced by the field's length. -/
def syncRead {Msg : Type} (c : FieldCodec) (next : LayerOps Msg)
    (data : List Nat) (size : Nat) (ptr : Bool) : ReadOut Msg :=
  let fr := intFieldRead c.len data size
  if fr.status = ErrorStatus.NotEnoughData then
    ⟨fr.status, none, fr.rest, updateMissingSize c.len next.minLen size ptr⟩
  else if fr.status ≠ ErrorStatus.Success then
    ⟨fr.status, none, fr.rest, none⟩
  else if fr.value ≠ c.defaultVal then
    ⟨ErrorStatus.ProtocolError, none, fr.rest, none⟩
  else
    next.read fr.rest (size - c.len) ptr

/-- `SyncPrefixLayer::doWrite`: write the default-constructed field
(the sync constant), then delegate with the size reduced by the field's
length. -/
def syncWrite {Msg : Type} (c : FieldCodec)
    (nextWrite : Msg → Nat → ErrorStatus × List Nat)
    (m : Msg) (size : Nat) : ErrorStatus × List Nat :=
  let (st, bs) := intFieldWrite c.len c.defaultVal size
  if st ≠ ErrorStatus.Success then (st, bs)
  else
    let (st2, bs2) := nextWrite m (size - c.len)
    (st2, bs ++ bs2)

/-- `ProtocolLayerBase::doUpdate` via `updateInternal` with
`FixedLengthTag`: advance the iterator by the field's (fixed) length
without touching the bytes, then delegate with the size reduced by that
length. -/
def doUpdateFixed (len : Nat)
    (nextUpdate : List Nat → Nat → ErrorStatus × List Nat)
    (buf : List Nat) (size : Nat) : ErrorStatus × List Nat :=
  let (st, rest) := nextUpdate (buf.drop len) (size - len)
  (st, buf.take len ++ rest)

/-- The `SyncPrefixLayer` wrapped around a next layer, assembling
`ProtocolLayerBase`'s `length()`/`length(msg)` (field `minLength()` plus
the next layer's length) with the layer's `doRead`/`doWrite` and the
inherited default `doUpdate`. -/
def syncLayer {Msg : Type} (c : FieldCodec) (next : LayerOps Msg) : LayerOps Msg where
  minLen := c.len + next.minLen
  lenOf m := c.len + next.lenOf m
  read := syncRead c next
  writeRA := syncWrite c next.writeRA
  writePB := syncWrite c next.writePB
  update := doUpdateFixed c.len next.update

/-- Modelled from the spec: read side of the `Size` layer
(`comms::protocol::MsgSizeLayer`, not among the sources here).  "On
read: read size; require `remaining >= size_value + size_field.length`;
clip the inner read to `size_value`; if inner returns success with
leftover bytes inside that window => `ProtocolError`." -/
def sizeRead {Msg : Type} (c : FieldCodec) (next : LayerOps Msg)
    (data : List Nat) (size : Nat) (ptr : Bool) : ReadOut Msg :=
  let fr := intFieldRead c.len data size
  if fr.status = ErrorStatus.NotEnoughData then
    ⟨fr.status, none, fr.rest, updateMissingSize c.len next.minLen size ptr⟩
  else if fr.status ≠ ErrorStatus.Success then
    ⟨fr.status, none, fr.rest, none⟩
  else if size < fr.value + c.len then
    ⟨ErrorStatus.NotEnoughData, none, fr.rest,
      if ptr then some (max 1 (fr.value + c.len - size)) else none⟩
  else
    let r := next.read fr.rest fr.value ptr
    if r.status = ErrorStatus.Success ∧ fr.rest.length - r.rest.length < fr.value then
      ⟨ErrorStatus.ProtocolError, none, r.rest, none⟩
    else r

/-- Modelled from the spec: write side of the `Size` layer through a
random-access iterator.  "On write with random-access iterator: recurse
first then patch"; the patched slot ends up holding the byte count of
everything inside, so the resulting buffer carries the inner length in
the size slot followed by the inner bytes. -/
def sizeWriteRA {Msg : Type} (c : FieldCodec) (next : LayerOps Msg)
    (m : Msg) (size : Nat) : ErrorStatus × List Nat :=
  let (st, bs) := intFieldWrite c.len (next.lenOf m) size
  if st ≠ ErrorStatus.Success then (st, bs)
  else
    let (st2, bs2) := next.writeRA m (size - c.len)
    (st2, bs ++ bs2)

/-- Modelled from the spec: write side of the `Size` layer through a
push-back iterator.  "On push-back only: write a placeholder (using
`min_length`) and return `UpdateRequired`"; the placeholder value is
zero (spec scenario E: the written buffer holds `00` in the size slot
before the update pass). -/
def sizeWritePB {Msg : Type} (c : FieldCodec) (next : LayerOps Msg)
    (m : Msg) (size : Nat) : ErrorStatus × List Nat :=
  let (st, bs) := intFieldWrite c.len 0 size
  if st ≠ ErrorStatus.Success then (st, bs)
  else
    let (st2, bs2) := next.writePB m (size - c.len)
    (if st2 = ErrorStatus.Success then ErrorStatus.UpdateRequired else st2, bs ++ bs2)

/-- Modelled from the spec: `do_update` of the `Size` layer "writes the
real value into the reserved slot": the byte count of everything after
the slot inside the written frame, then delegates. -/
def sizeUpdate {Msg : Type} (c : FieldCodec) (next : LayerOps Msg)
    (buf : List Nat) (size : Nat) : ErrorStatus × List Nat :=
  let (st, rest) := next.update (buf.drop c.len) (size - c.len)
  (st, bytesBE c.len (size - c.len) ++ rest)

/-- The `Size` layer wrapped around a next layer.  Modelled from the
spec (the layer's implementation is not among the sources here). -/
def sizeLayer {Msg : Type} (c : FieldCodec) (next : LayerOps Msg) : LayerOps Msg where
  minLen := c.len + next.minLen
  lenOf m := c.len + next.lenOf m
  read := sizeRead c next
  writeRA := sizeWriteRA c next
  writePB := sizeWritePB c next
  update := sizeUpdate c next

/-- Modelled from the spec: packing side of the bitfield codec
(`comms::field::basic::Bitfield`, whose implementation file is not among
the sources here; `Bitfield.h` only forwards to it).  Children with bit
lengths `ns` and values `vs` are packed into one unsigned word, each
child occupying its bits at the cumulative offset assigned
left-to-right; a value that does not fit its width is truncated
silently. -/
def bitfieldPack : List Nat → List Nat → Nat
  | n :: ns, v :: vs => v % 2 ^ n + 2 ^ n * bitfieldPack ns vs
  | _, _ => 0

/-- Modelled from the spec: unpacking side of the bitfield codec.  Child
`i` with cumulative bit offset `s_i` receives `(w >> s_i) & ((1<<N_i)-1)`,
realised here by successive division and remainder. -/
def bitfieldUnpack : List Nat → Nat → List Nat
  | [], _ => []
  | n :: ns, w => w % 2 ^ n :: bitfieldUnpack ns (w / 2 ^ n)

/-- Serialised octet length of a bitfield whose children's bit lengths
sum to `B`: the packed group occupies `B / 8` octets. -/
def bitfieldByteLength (ns : List Nat) : Nat := ns.sum / 8

/-- Modelled from the spec: bitfield write.  The packed word is emitted
as the `B/8`-octet group under the ambient (big) endian;
`BufferOverflow` when the destination cannot hold the group. -/
def bitfieldWrite (ns vs : List Nat) (size : Nat) : ErrorStatus × List Nat :=
  if size < bitfieldByteLength ns then (ErrorStatus.BufferOverflow, [])
  else (ErrorStatus.Success, bytesBE (bitfieldByteLength ns) (bitfieldPack ns vs))

/-- Modelled from the spec: bitfield read.  "Read the `B/8` bytes under
ambient endian into an unsigned integer `w`", then extract the children;
`NotEnoughData` when fewer bytes remain. -/
def bitfieldRead (ns : List Nat) (data : List Nat) (size : Nat) :
    ErrorStatus × List Nat × List Nat :=
  if size < bitfieldByteLength ns then (ErrorStatus.NotEnoughData, [], data)
  else
    let w := natFromBytesBE (data.take (bitfieldByteLength ns))
    (ErrorStatus.Success, bitfieldUnpack ns w, data.drop (bitfieldByteLength ns))

/-- Modelled from the spec: validity of the basic integer field, "iff
the logical value lies within the union of configured intervals (empty
union => all values valid)". -/
def intValueValid (intervals : List (Nat × Nat)) (v : Nat) : Bool :=
  intervals.isEmpty || intervals.any (fun p => p.1 ≤ v && v ≤ p.2)

/-- `EnumValue::valid` delegates to the underlying integer field's
validity; per the enum field's contract its discriminated set is
configured through the limit value ("Maximal and invalid value. All
other values below the TLimit are considered to be valid"), i.e. the
configured interval is `[0, limit - 1]`. -/
def enumValid (limit : Nat) (v : Nat) : Bool :=
  intValueValid [(0, limit - 1)] v

/-- The declared variants of an enum field configured with a limit
value: the underlying values `0 .. limit - 1`. -/
def enumDeclaredVariants (limit : Nat) : List Nat := List.range limit

/-- `Bitfield::refresh`: "Calls refresh() member function on every
member field, will return true if any of the calls returns true."  A
member is modelled as a refresh function from its value to the refreshed
value paired with the did-mutate flag. -/
def membersRefresh : List (Nat → Nat × Bool) → List Nat → List Nat × Bool
  | f :: fs, v :: vs =>
      let r := f v
      let rs := membersRefresh fs vs
      (r.1 :: rs.1, r.2 || rs.2)
  | _, _ => ([], false)

/-- `MessageInterfaceRefreshBase::refresh` dispatches to the virtual
`refreshImpl`; a message type that does not override it gets the default
implementation, which mutates nothing and returns `false`. -/
def msgInterfaceRefresh {σ : Type} (overrideImpl : Option (σ → σ × Bool)) (s : σ) :
    σ × Bool :=
  match overrideImpl with
  | some f => f s
  | none => (s, false)

/-- `MessageInterfaceReadOnlyBase::read` dispatches to the virtual
`readImpl`; a message type that does not override it gets the default,
which ignores the iterator and returns `NotSupported`
(`MessageInterfaceReadOnlyBase::doRead`). -/
def msgInterfaceRead (overrideImpl : Option (List Nat → Nat → ErrorStatus × List Nat))
    (data : List Nat) (size : Nat) : ErrorStatus × List Nat :=
  match overrideImpl with
  | some f => f data size
  | none => (ErrorStatus.NotSupported, data)

/-- `MessageInterfaceWriteOnlyBase::write` dispatches to the virtual
`writeImpl`; without an override the default ignores the iterator and
returns `NotSupported` (`MessageInterfaceWriteOnlyBase::doWrite`).  The
emitted byte list models the data written through the iterator. -/
def msgInterfaceWrite (overrideImpl : Option (Nat → ErrorStatus × List Nat))
    (size : Nat) : ErrorStatus × List Nat :=
  match overrideImpl with
  | some f => f size
  | none => (ErrorStatus.NotSupported, [])

theorem bitfieldPack_lt (ns vs : List Nat) : bitfieldPack ns vs < 2 ^ ns.sum := by
  induction ns generalizing vs with
  | nil => cases vs <;> simp [bitfieldPack]
  | cons n ns ih =>
      cases vs with
      | nil =>
          simp only [bitfieldPack]
          exact Nat.pos_pow_of_pos _ (by norm_num)
      | cons v vs =>
          simp only [bitfieldPack, List.sum_cons, pow_add]
          have hA : 0 < 2 ^ n := Nat.pos_pow_of_pos n (by norm_num)
          have hS : 0 < 2 ^ ns.sum := Nat.pos_pow_of_pos _ (by norm_num)
          have h1 : v % 2 ^ n < 2 ^ n := Nat.mod_lt _ hA
          have h3 : 2 ^ n * bitfieldPack ns vs ≤ 2 ^ n * (2 ^ ns.sum - 1) :=
            Nat.mul_le_mul_left _ (Nat.le_sub_one_of_lt (ih vs))
          have h4 : 2 ^ n * (2 ^ ns.sum - 1) = 2 ^ n * 2 ^ ns.sum - 2 ^ n * 1 :=
            Nat.mul_sub _ _ _
          have h5 : 2 ^ n ≤ 2 ^ n * 2 ^ ns.sum := Nat.le_mul_of_pos_right _ hS
          omega

theorem bitfieldUnpack_pack (ns vs : List Nat) (h : ns.length = vs.length) :
    bitfieldUnpack ns (bitfieldPack ns vs) =
      List.zipWith (fun v n => v % 2 ^ n) vs ns := by
  induction ns generalizing vs with
  | nil =>
      cases vs with
      | nil => rfl
      | cons v vs => simp at h
  | cons n ns ih =>
      cases vs with
      | nil => simp at h
      | cons v vs =>
          have hA : 0 < 2 ^ n := Nat.pos_pow_of_pos n (by norm_num)
          simp only [bitfieldPack, bitfieldUnpack, List.zipWith_cons_cons]
          have hhead : (v % 2 ^ n + 2 ^ n * bitfieldPack ns vs) % 2 ^ n = v % 2 ^ n := by
            rw [Nat.add_mul_mod_self_left]
            exact Nat.mod_mod_of_dvd _ dvd_rfl
          have hdiv : (v % 2 ^ n + 2 ^ n * bitfieldPack ns vs) / 2 ^ n =
              bitfieldPack ns vs := by
            rw [Nat.add_mul_div_left _ _ hA, Nat.div_eq_of_lt (Nat.mod_lt _ hA)]
            omega
          rw [hhead, hdiv, ih vs (by simpa using h)]

theorem bytesBE_take_all (n v : Nat) : (bytesBE n v).take n = bytesBE n v :=
  List.take_of_length_le (by rw [bytesBE_length])

theorem bytesBE_drop_all (n v : Nat) : (bytesBE n v).drop n = [] :=
  List.drop_eq_nil_of_le (by rw [bytesBE_length])

theorem pow256_eq_pow2_sum (ns : List Nat) (h8 : ns.sum % 8 = 0) :
    (256 : Nat) ^ bitfieldByteLength ns = 2 ^ ns.sum := by
  rw [show (256 : Nat) = 2 ^ 8 by norm_num, ← pow_mul, bitfieldByteLength,
    Nat.mul_div_cancel' (Nat.dvd_of_mod_eq_zero h8)]

theorem bitfieldRoundTripCore (ns vs : List Nat) (size : Nat)
    (h8 : ns.sum % 8 = 0) (hlen : ns.length = vs.length)
    (hsz : bitfieldByteLength ns ≤ size) :
    (bitfieldWrite ns vs size).1 = ErrorStatus.Success ∧
    bitfieldRead ns (bitfieldWrite ns vs size).2 (bitfieldByteLength ns) =
      (ErrorStatus.Success, List.zipWith (fun v n => v % 2 ^ n) vs ns, []) := by
  have hP : bitfieldPack ns vs < 256 ^ bitfieldByteLength ns := by
    rw [pow256_eq_pow2_sum ns h8]
    exact bitfieldPack_lt ns vs
  unfold bitfieldWrite
  rw [if_neg (by omega)]
  refine ⟨rfl, ?_⟩
  unfold bitfieldRead
  rw [if_neg (by omega)]
  simp only [bytesBE_take_all, natFromBytesBE_bytesBE, Nat.mod_eq_of_lt hP,
    bitfieldUnpack_pack ns vs hlen, bytesBE_drop_all]

/-- C6: for every bitfield whose children declare bit lengths summing to
a multiple of 8, writing children set to `v_1 … v_k` succeeds with no
rejection of out-of-range values (silent truncation), and reading the
group back yields `v_i mod 2^{N_i}` for each child. -/
theorem bitfield_write_read_truncates (ns vs : List Nat) (size : Nat)
    (h8 : ns.sum % 8 = 0) (hlen : ns.length = vs.length)
    (hsz : bitfieldByteLength ns ≤ size) :
    (bitfieldWrite ns vs size).1 = ErrorStatus.Success ∧
    bitfieldRead ns (bitfieldWrite ns vs size).2 (bitfieldByteLength ns) =
      (ErrorStatus.Success, List.zipWith (fun v n => v % 2 ^ n) vs ns, []) :=
  bitfieldRoundTripCore ns vs size h8 hlen hsz

/-- Witness for C6 at a concrete bitfield `{a:3, b:5, c:8}` holding
`a=5, b=17, c=0xAA`. -/
theorem bitfield_write_read_truncates_witness :
    (bitfieldWrite [3, 5, 8] [5, 17, 170] 2).1 = ErrorStatus.Success ∧
    bitfieldRead [3, 5, 8] (bitfieldWrite [3, 5, 8] [5, 17, 170] 2).2
        (bitfieldByteLength [3, 5, 8]) =
      (ErrorStatus.Success, List.zipWith (fun v n => v % 2 ^ n) [5, 17, 170] [3, 5, 8], []) :=
  bitfield_write_read_truncates [3, 5, 8] [5, 17, 170] 2 (by decide) (by decide) (by decide)

theorem pow256_eq (n : Nat) : (256 : Nat) ^ n = 2 ^ (8 * n) := by
  rw [show (256 : Nat) = 2 ^ 8 by norm_num, ← pow_mul]

theorem zipWith_mod_eq_self (vs ns : List Nat) (hlen : ns.length = vs.length)
    (hfit : ∀ p ∈ vs.zip ns, p.1 < 2 ^ p.2) :
    List.zipWith (fun v n => v % 2 ^ n) vs ns = vs := by
  induction vs generalizing ns with
  | nil => cases ns <;> simp_all
  | cons v vs ih =>
      cases ns with
      | nil => simp at hlen
      | cons n ns =>
          simp only [List.zipWith_cons_cons]
          have hv : v < 2 ^ n := hfit (v, n) (by simp)
          rw [Nat.mod_eq_of_lt hv, ih ns (by simpa using hlen)
            (fun p hp => hfit p (by simp [hp]))]

theorem intField_roundtrip (len v size : Nat) (hv : v < 2 ^ (8 * len))
    (hsz : len ≤ size) :
    intFieldWrite len v size = (ErrorStatus.Success, bytesBE len v) ∧
    intFieldRead len (bytesBE len v) len = ⟨ErrorStatus.Success, v, []⟩ := by
  constructor
  · unfold intFieldWrite
    rw [if_neg (by omega)]
  · unfold intFieldRead
    rw [if_neg (by omega)]
    simp only [bytesBE_take_all, natFromBytesBE_bytesBE, pow256_eq,
      Nat.mod_eq_of_lt hv, bytesBE_drop_all]

/-- Inversion of a successful one-pass write of the sync-prefix stack:
the size accommodated the sync field and the payload, and the buffer is
the serialised sync constant followed by the payload bytes. -/
theorem syncPayload_writeRA_success (c : FieldCodec) (m : List Nat) (size : Nat)
    (bs : List Nat)
    (h : (syncLayer c payloadLayer).writeRA m size = (ErrorStatus.Success, bs)) :
    c.len ≤ size ∧ m.length ≤ size - c.len ∧ bs = bytesBE c.len c.defaultVal ++ m := by
  by_cases h1 : size < c.len
  · simp [syncLayer, syncWrite, intFieldWrite, h1] at h
  · by_cases h2 : size - c.len < m.length
    · simp [syncLayer, syncWrite, intFieldWrite, payloadLayer, h1, h2] at h
    · simp only [syncLayer, syncWrite, intFieldWrite, payloadLayer, if_neg h1,
        if_neg h2, ne_eq] at h
      simp at h
      exact ⟨by omega, by omega, h.symm⟩

/-- C1: write followed by read reproduces the original value — for the
fixed-length integer field codec (underlying `EnumValue`), for the
bitfield codec when every child value fits its declared bit length, and
for the protocol stack: a message written successfully through the
sync-prefix stack and read back successfully decodes to the original
message. -/
theorem write_read_roundtrip :
    (∀ len v size : Nat, v < 2 ^ (8 * len) → len ≤ size →
        intFieldWrite len v size = (ErrorStatus.Success, bytesBE len v) ∧
        intFieldRead len (bytesBE len v) len = ⟨ErrorStatus.Success, v, []⟩) ∧
    (∀ (ns vs : List Nat) (size : Nat), ns.sum % 8 = 0 → ns.length = vs.length →
        bitfieldByteLength ns ≤ size → (∀ p ∈ vs.zip ns, p.1 < 2 ^ p.2) →
        bitfieldRead ns (bitfieldWrite ns vs size).2 (bitfieldByteLength ns) =
          (ErrorStatus.Success, vs, [])) ∧
    (∀ (c : FieldCodec) (m bs : List Nat) (size : Nat),
        (syncLayer c payloadLayer).writeRA m size = (ErrorStatus.Success, bs) →
        ((syncLayer c payloadLayer).read bs bs.length true).status = ErrorStatus.Success →
        ((syncLayer c payloadLayer).read bs bs.length true).msg = some m) := by
  refine ⟨fun len v size hv hsz => intField_roundtrip len v size hv hsz,
    fun ns vs size h8 hlen hsz hfit => ?_, fun c m bs size hw hr => ?_⟩
  · rw [(bitfieldRoundTripCore ns vs size h8 hlen hsz).2,
      zipWith_mod_eq_self vs ns hlen hfit]
  · obtain ⟨h1, h2, hbs⟩ := syncPayload_writeRA_success c m size bs hw
    subst hbs
    have hlen1 : (bytesBE c.len c.defaultVal).length = c.len := bytesBE_length _ _
    have hlenbs : (bytesBE c.len c.defaultVal ++ m).length = c.len + m.length := by
      simp [hlen1]
    by_cases hd : c.defaultVal % 256 ^ c.len = c.defaultVal
    · simp only [syncLayer, syncRead, intFieldRead, hlenbs, if_neg (by omega : ¬ c.len + m.length < c.len),
        List.take_left' hlen1, List.drop_left' hlen1, natFromBytesBE_bytesBE, hd] at hr ⊢
      simp only [payloadLayer] at hr ⊢
      simp at hr ⊢
    · exfalso
      simp only [syncLayer, syncRead, intFieldRead, hlenbs, if_neg (by omega : ¬ c.len + m.length < c.len),
        List.take_left' hlen1, natFromBytesBE_bytesBE] at hr
      simp [hd] at hr

/-- Witness for C1: a 2-octet integer field holding 258, the concrete
bitfield `{3,5,8}` with in-range values, and the sync-prefix stack with
magic `0xABCD` carrying payload `01 00 07`. -/
theorem write_read_roundtrip_witness :
    (intFieldWrite 2 258 3 = (ErrorStatus.Success, bytesBE 2 258) ∧
      intFieldRead 2 (bytesBE 2 258) 2 = ⟨ErrorStatus.Success, 258, []⟩) ∧
    bitfieldRead [3, 5, 8] (bitfieldWrite [3, 5, 8] [5, 17, 10] 2).2
        (bitfieldByteLength [3, 5, 8]) = (ErrorStatus.Success, [5, 17, 10], []) ∧
    ((syncLayer ⟨2, 43981⟩ payloadLayer).read [171, 205, 1, 0, 7]
        ([171, 205, 1, 0, 7] : List Nat).length true).msg = some [1, 0, 7] :=
  ⟨write_read_roundtrip.1 2 258 3 (by norm_num) (by norm_num),
   write_read_roundtrip.2.1 [3, 5, 8] [5, 17, 10] 2 (by decide) (by decide) (by decide)
     (by decide),
   write_read_roundtrip.2.2 ⟨2, 43981⟩ [1, 0, 7] [171, 205, 1, 0, 7] 5 (by decide)
     (by decide)⟩

/-- C2: a sync-prefix read whose sync field reads successfully returns
`ProtocolError` when the field differs from the default-constructed
constant — producing a result that does not depend on the inner layer at
all — and otherwise delegates to the inner layer's read with the
remaining size reduced by the sync field's length, returning its
result. -/
theorem syncPrefix_read_behaviour (Msg : Type) (c : FieldCodec)
    (next next' : LayerOps Msg) (data : List Nat) (size : Nat) (ptr : Bool)
    (hsz : c.len ≤ size) :
    (natFromBytesBE (data.take c.len) ≠ c.defaultVal →
        syncRead c next data size ptr =
          ⟨ErrorStatus.ProtocolError, none, data.drop c.len, none⟩ ∧
        syncRead c next data size ptr = syncRead c next' data size ptr) ∧
    (natFromBytesBE (data.take c.len) = c.defaultVal →
        syncRead c next data size ptr = next.read (data.drop c.len) (size - c.len) ptr) := by
  have hfr : intFieldRead c.len data size =
      ⟨ErrorStatus.Success, natFromBytesBE (data.take c.len), data.drop c.len⟩ := by
    unfold intFieldRead
    rw [if_neg (by omega)]
  refine ⟨fun hne => ⟨?_, ?_⟩, fun heq => ?_⟩
  · simp [syncRead, hfr, hne]
  · simp [syncRead, hfr, hne]
  · simp [syncRead, hfr, heq]

/-- Witness for C2: sync magic `0xABCD`; reading `AB CE 01` yields
`ProtocolError` independently of the inner layer, and reading `AB CD 01`
delegates to the payload layer's read of the remaining byte. -/
theorem syncPrefix_read_behaviour_witness :
    (syncRead ⟨2, 43981⟩ payloadLayer [171, 206, 1] 3 true =
        ⟨ErrorStatus.ProtocolError, none, [1], none⟩ ∧
      syncRead ⟨2, 43981⟩ payloadLayer [171, 206, 1] 3 true =
        syncRead ⟨2, 43981⟩ (syncLayer ⟨1, 0⟩ payloadLayer) [171, 206, 1] 3 true) ∧
    syncRead ⟨2, 43981⟩ payloadLayer [171, 205, 1] 3 true =
      payloadLayer.read [1] 1 true :=
  ⟨(syncPrefix_read_behaviour (List Nat) ⟨2, 43981⟩ payloadLayer
      (syncLayer ⟨1, 0⟩ payloadLayer) [171, 206, 1] 3 true (by decide)).1 (by decide),
   (syncPrefix_read_behaviour (List Nat) ⟨2, 43981⟩ payloadLayer payloadLayer
      [171, 205, 1] 3 true (by decide)).2 (by decide)⟩

/-- A concrete protocol stack `Sync + Size + Payload`, as in the spec's
scenario B. -/
def demoStack (c1 c2 : FieldCodec) : LayerOps (List Nat) :=
  syncLayer c1 (sizeLayer c2 payloadLayer)

/-- Inversion of a successful one-pass write of the `Sync + Size +
Payload` stack: all three parts fitted and the buffer is sync constant,
then the inner byte count, then the payload. -/
theorem demoStack_writeRA_success (c1 c2 : FieldCodec) (m : List Nat) (size : Nat)
    (bs : List Nat)
    (h : (demoStack c1 c2).writeRA m size = (ErrorStatus.Success, bs)) :
    c1.len ≤ size ∧ c2.len ≤ size - c1.len ∧ m.length ≤ size - c1.len - c2.len ∧
    bs = bytesBE c1.len c1.defaultVal ++ (bytesBE c2.len m.length ++ m) := by
  by_cases h1 : size < c1.len
  · simp [demoStack, syncLayer, syncWrite, intFieldWrite, h1] at h
  · by_cases h2 : size - c1.len < c2.len
    · simp [demoStack, syncLayer, syncWrite, sizeLayer, sizeWriteRA, intFieldWrite,
        h1, h2] at h
    · by_cases h3 : size - c1.len - c2.len < m.length
      · simp [demoStack, syncLayer, syncWrite, sizeLayer, sizeWriteRA, payloadLayer,
          intFieldWrite, h1, h2, h3] at h
      · simp only [demoStack, syncLayer, syncWrite, sizeLayer, sizeWriteRA,
          payloadLayer, intFieldWrite, if_neg h1, if_neg h2, if_neg h3, ne_eq] at h
        simp at h
        exact ⟨by omega, by omega, by omega, h.symm⟩

/-- C3: for the `Sync + Size + Payload` stack, the message-independent
`length()` is the sum of the layer fields' minimal lengths plus the
payload layer's length; a successful one-pass write of `m` emits exactly
`length(m)` bytes; and `length() ≤ length(m)`. -/
theorem stack_length_consistency (c1 c2 : FieldCodec) (m : List Nat) (size : Nat)
    (bs : List Nat)
    (h : (demoStack c1 c2).writeRA m size = (ErrorStatus.Success, bs)) :
    (demoStack c1 c2).minLen = c1.len + c2.len + payloadLayer.minLen ∧
    bs.length = (demoStack c1 c2).lenOf m ∧
    (demoStack c1 c2).minLen ≤ (demoStack c1 c2).lenOf m := by
  obtain ⟨h1, h2, h3, hbs⟩ := demoStack_writeRA_success c1 c2 m size bs h
  subst hbs
  refine ⟨by simp [demoStack, syncLayer, sizeLayer, payloadLayer], ?_, ?_⟩
  · simp [demoStack, syncLayer, sizeLayer, payloadLayer, bytesBE_length]
  · simp [demoStack, syncLayer, sizeLayer, payloadLayer]

/-- Witness for C3: sync `0xAB`, one-byte size field, payload `01 00 07`
written into a buffer of capacity 16. -/
theorem stack_length_consistency_witness :
    (demoStack ⟨1, 171⟩ ⟨1, 0⟩).minLen = 1 + 1 + payloadLayer.minLen ∧
    ([171, 3, 1, 0, 7] : List Nat).length = (demoStack ⟨1, 171⟩ ⟨1, 0⟩).lenOf [1, 0, 7] ∧
    (demoStack ⟨1, 171⟩ ⟨1, 0⟩).minLen ≤ (demoStack ⟨1, 171⟩ ⟨1, 0⟩).lenOf [1, 0, 7] :=
  stack_length_consistency ⟨1, 171⟩ ⟨1, 0⟩ [1, 0, 7] 16 [171, 3, 1, 0, 7] (by decide)

/-- C4: for the sync-prefix layer over the payload layer, the
`missingSize` output is written exactly when the read returns
`NotEnoughData` and the caller passed a non-null pointer, and then holds
`max(1, required - available)` with `required` the layer field's length
plus the inner layers' minimal length. -/
theorem missing_size_semantics (c : FieldCodec) (data : List Nat) (size : Nat) :
    (size < c.len →
        (syncRead c payloadLayer data size true).status = ErrorStatus.NotEnoughData ∧
        (syncRead c payloadLayer data size true).missing =
          some (max 1 (c.len + payloadLayer.minLen - size)) ∧
        (syncRead c payloadLayer data size false).missing = none) ∧
    (c.len ≤ size →
        (syncRead c payloadLayer data size true).status ≠ ErrorStatus.NotEnoughData ∧
        (syncRead c payloadLayer data size true).missing = none) := by
  constructor
  · intro hlt
    have hfr : intFieldRead c.len data size = ⟨ErrorStatus.NotEnoughData, 0, data⟩ := by
      unfold intFieldRead
      rw [if_pos hlt]
    refine ⟨?_, ?_, ?_⟩ <;> simp [syncRead, hfr, updateMissingSize]
  · intro hle
    have hfr : intFieldRead c.len data size =
        ⟨ErrorStatus.Success, natFromBytesBE (data.take c.len), data.drop c.len⟩ := by
      unfold intFieldRead
      rw [if_neg (by omega)]
    by_cases hv : natFromBytesBE (data.take c.len) = c.defaultVal
    · simp [syncRead, hfr, hv, payloadLayer]
    · simp [syncRead, hfr, hv]

/-- Witness for C4 with a two-byte sync field: a one-byte input is short
by one byte (`missing = 1`), and a three-byte input sets no missing
output. -/
theorem missing_size_semantics_witness :
    ((syncRead ⟨2, 43981⟩ payloadLayer [171] 1 true).status = ErrorStatus.NotEnoughData ∧
      (syncRead ⟨2, 43981⟩ payloadLayer [171] 1 true).missing =
        some (max 1 (2 + payloadLayer.minLen - 1)) ∧
      (syncRead ⟨2, 43981⟩ payloadLayer [171] 1 false).missing = none) ∧
    ((syncRead ⟨2, 43981⟩ payloadLayer [171, 205, 1] 3 true).status ≠
        ErrorStatus.NotEnoughData ∧
      (syncRead ⟨2, 43981⟩ payloadLayer [171, 205, 1] 3 true).missing = none) :=
  ⟨(missing_size_semantics ⟨2, 43981⟩ [171] 1).1 (by decide),
   (missing_size_semantics ⟨2, 43981⟩ [171, 205, 1] 3).2 (by decide)⟩

/-- Inversion of a push-back write of the `Sync + Size + Payload` stack
that returned `UpdateRequired`: everything fitted and the buffer holds
the sync constant, a zero placeholder in the size slot, and the
payload. -/
theorem demoStack_writePB_updateRequired (c1 c2 : FieldCodec) (m : List Nat)
    (size : Nat) (bs : List Nat)
    (h : (demoStack c1 c2).writePB m size = (ErrorStatus.UpdateRequired, bs)) :
    c1.len ≤ size ∧ c2.len ≤ size - c1.len ∧ m.length ≤ size - c1.len - c2.len ∧
    bs = bytesBE c1.len c1.defaultVal ++ (bytesBE c2.len 0 ++ m) := by
  by_cases h1 : size < c1.len
  · simp [demoStack, syncLayer, syncWrite, intFieldWrite, h1] at h
  · by_cases h2 : size - c1.len < c2.len
    · simp [demoStack, syncLayer, syncWrite, sizeLayer, sizeWritePB, intFieldWrite,
        h1, h2] at h
    · by_cases h3 : size - c1.len - c2.len < m.length
      · simp [demoStack, syncLayer, syncWrite, sizeLayer, sizeWritePB, payloadLayer,
          intFieldWrite, h1, h2, h3] at h
      · simp only [demoStack, syncLayer, syncWrite, sizeLayer, sizeWritePB,
          payloadLayer, intFieldWrite, if_neg h1, if_neg h2, if_neg h3, ne_eq] at h
        simp at h
        exact ⟨by omega, by omega, by omega, h.symm⟩

/-- C5: if the push-back write of the `Sync + Size + Payload` stack
returns `UpdateRequired`, the buffer already has its full length (the
size slot holding a placeholder), and the subsequent successful update
pass over that buffer yields exactly the buffer a one-pass random-access
write produces. -/
theorem two_pass_write_update_equivalence (c1 c2 : FieldCodec) (m : List Nat)
    (size : Nat) (bs bs2 : List Nat)
    (hw : (demoStack c1 c2).writePB m size = (ErrorStatus.UpdateRequired, bs))
    (hu : (demoStack c1 c2).update bs bs.length = (ErrorStatus.Success, bs2)) :
    bs.length = (demoStack c1 c2).lenOf m ∧
    (demoStack c1 c2).writeRA m size = (ErrorStatus.Success, bs2) := by
  obtain ⟨h1, h2, h3, hbs⟩ := demoStack_writePB_updateRequired c1 c2 m size bs hw
  subst hbs
  have hl1 : (bytesBE c1.len c1.defaultVal).length = c1.len := bytesBE_length _ _
  have hl2 : (bytesBE c2.len 0).length = c2.len := bytesBE_length _ _
  have hlen : (bytesBE c1.len c1.defaultVal ++ (bytesBE c2.len 0 ++ m)).length =
      c1.len + (c2.len + m.length) := by simp [hl1, hl2]
  have hupd : (demoStack c1 c2).update
      (bytesBE c1.len c1.defaultVal ++ (bytesBE c2.len 0 ++ m))
      (bytesBE c1.len c1.defaultVal ++ (bytesBE c2.len 0 ++ m)).length =
      (ErrorStatus.Success,
        bytesBE c1.len c1.defaultVal ++ (bytesBE c2.len m.length ++ m)) := by
    simp only [demoStack, syncLayer, sizeLayer, payloadLayer, doUpdateFixed,
      sizeUpdate, hlen, List.take_left' hl1, List.drop_left' hl1,
      List.drop_left' hl2]
    have : c1.len + (c2.len + m.length) - c1.len - c2.len = m.length := by omega
    rw [this]
  rw [hupd] at hu
  have hbs2 : bs2 = bytesBE c1.len c1.defaultVal ++ (bytesBE c2.len m.length ++ m) :=
    (Prod.mk.injEq _ _ _ _ ▸ hu).symm.1.symm
  constructor
  · simp [demoStack, syncLayer, sizeLayer, payloadLayer, hl1, hl2]
  · rw [hbs2]
    simp only [demoStack, syncLayer, syncWrite, sizeLayer, sizeWriteRA, payloadLayer,
      intFieldWrite, if_neg (by omega : ¬ size < c1.len),
      if_neg (by omega : ¬ size - c1.len < c2.len),
      if_neg (by omega : ¬ size - c1.len - c2.len < m.length), ne_eq]
    simp

/-- Witness for C5: sync `AB`, one-byte size, payload `01 00 07`; the
push-back write emits `AB 00 01 00 07` with `UpdateRequired` and the
update pass turns it into the one-pass buffer `AB 03 01 00 07`. -/
theorem two_pass_write_update_equivalence_witness :
    ([171, 0, 1, 0, 7] : List Nat).length = (demoStack ⟨1, 171⟩ ⟨1, 0⟩).lenOf [1, 0, 7] ∧
    (demoStack ⟨1, 171⟩ ⟨1, 0⟩).writeRA [1, 0, 7] 16 =
      (ErrorStatus.Success, [171, 3, 1, 0, 7]) :=
  two_pass_write_update_equivalence ⟨1, 171⟩ ⟨1, 0⟩ [1, 0, 7] 16 [171, 0, 1, 0, 7]
    [171, 3, 1, 0, 7] (by decide) (by decide)

/-- C7: an enum field is valid exactly when its stored underlying value
names a declared variant — the values below the configured limit. -/
theorem enum_valid_iff_declared (limit v : Nat) (hpos : 0 < limit) :
    enumValid limit v = true ↔ v ∈ enumDeclaredVariants limit := by
  simp [enumValid, intValueValid, enumDeclaredVariants, List.mem_range]
  omega

/-- Witness for C7 at limit 4, value 2. -/
theorem enum_valid_iff_declared_witness :
    enumValid 4 2 = true ↔ 2 ∈ enumDeclaredVariants 4 :=
  enum_valid_iff_declared 4 2 (by decide)

/-- C8: refresh is idempotent — the default message-interface refresh
implementation returns false always, and a composite (bitfield) refresh
run twice returns false the second time whenever each member's refresh
leaves an already-refreshed value unmutated. -/
theorem refresh_idempotent :
    (∀ (σ : Type) (s : σ),
        (msgInterfaceRefresh none (msgInterfaceRefresh none s).1).2 = false) ∧
    (∀ (fs : List (Nat → Nat × Bool)) (vs : List Nat),
        (∀ f ∈ fs, ∀ v, (f (f v).1).2 = false) →
        (membersRefresh fs (membersRefresh fs vs).1).2 = false) := by
  constructor
  · intro σ s
    rfl
  · intro fs
    induction fs with
    | nil => intro vs h; rfl
    | cons f fs ih =>
        intro vs h
        cases vs with
        | nil => rfl
        | cons v vs =>
            have hf := h f (List.mem_cons_self f fs) v
            have hrest := ih vs (fun g hg w => h g (List.mem_cons_of_mem f hg) w)
            simp only [membersRefresh]
            simp [hf, hrest]

/-- Witness for C8: a no-op member next to a member that rewrites any
value other than 5 to 5 (and reports the mutation); refreshing `[3, 7]`
twice returns false the second time. -/
theorem refresh_idempotent_witness :
    (msgInterfaceRefresh none (msgInterfaceRefresh none (0 : Nat)).1).2 = false ∧
    (membersRefresh
        [fun v => (v, false), fun v => if v = 5 then (v, false) else (5, true)]
        (membersRefresh
          [fun v => (v, false), fun v => if v = 5 then (v, false) else (5, true)]
          [3, 7]).1).2 = false :=
  ⟨refresh_idempotent.1 Nat 0,
   refresh_idempotent.2
     [fun v => (v, false), fun v => if v = 5 then (v, false) else (5, true)] [3, 7]
     (by
       intro f hf v
       simp only [List.mem_cons, List.not_mem_nil, or_false] at hf
       rcases hf with rfl | rfl
       · rfl
       · by_cases hv : v = 5 <;> simp [hv])⟩

/-- C9: the default `doUpdate` of a fixed-length middle layer advances
the iterator by exactly the field's length, modifies none of the bytes
in the field's slot, and returns the inner updater's status computed
over the size reduced by that length. -/
theorem default_update_advances (len : Nat)
    (next : List Nat → Nat → ErrorStatus × List Nat) (buf : List Nat) (size : Nat)
    (hlen : len ≤ buf.length) :
    (doUpdateFixed len next buf size).1 = (next (buf.drop len) (size - len)).1 ∧
    (doUpdateFixed len next buf size).2.take len = buf.take len ∧
    (doUpdateFixed len next buf size).2.drop len = (next (buf.drop len) (size - len)).2 := by
  have ht : (buf.take len).length = len := by
    rw [List.length_take]
    omega
  unfold doUpdateFixed
  exact ⟨rfl, List.take_left' ht, List.drop_left' ht⟩

/-- Witness for C9: a two-byte field over a buffer `[1, 2, 3]` with an
inner updater that rewrites the remaining suffix to `[9]`. -/
theorem default_update_advances_witness :
    (doUpdateFixed 2 (fun _ _ => (ErrorStatus.Success, [9])) [1, 2, 3] 5).1 =
      ((fun (_ : List Nat) (_ : Nat) => (ErrorStatus.Success, [9]))
        (([1, 2, 3] : List Nat).drop 2) (5 - 2)).1 ∧
    (doUpdateFixed 2 (fun _ _ => (ErrorStatus.Success, [9])) [1, 2, 3] 5).2.take 2 =
      ([1, 2, 3] : List Nat).take 2 ∧
    (doUpdateFixed 2 (fun _ _ => (ErrorStatus.Success, [9])) [1, 2, 3] 5).2.drop 2 =
      ((fun (_ : List Nat) (_ : Nat) => (ErrorStatus.Success, [9]))
        (([1, 2, 3] : List Nat).drop 2) (5 - 2)).2 :=
  default_update_advances 2 (fun _ _ => (ErrorStatus.Success, [9])) [1, 2, 3] 5
    (by decide)

/-- C10: a message interface whose concrete type does not override the
read (respectively write) implementation returns `NotSupported` from
`read` (respectively `write`), leaving the iterator unmoved and emitting
nothing. -/
theorem interface_read_write_not_supported (data : List Nat) (size : Nat) :
    msgInterfaceRead none data size = (ErrorStatus.NotSupported, data) ∧
    msgInterfaceWrite none size = (ErrorStatus.NotSupported, []) :=
  ⟨rfl, rfl⟩

end CommsChampion
